import Mathlib

set_option linter.unusedVariables false

/- Shallow embedding of include/util/graph_loader.hpp: the three loaders
(loadRestrictionsFromFile, loadNodesFromFile, loadEdgesFromFile) over a
word-granular binary stream. Each fixed-width field of an on-disk record is
one word of the stream; record layouts follow the specification because the
record headers themselves are not among the sources. -/

/-- Modelled from the spec: the format/build compatibility tag (format id,
version, build signature), compared structurally; util/fingerprint.hpp is not
among the sources. -/
structure FingerPrint where
  formatId : Nat
  version : Nat
  buildSignature : Nat
deriving DecidableEq

/-- Modelled from the spec: the compiled-in expected fingerprint value. -/
def FingerPrint.GetValid : FingerPrint := ⟨79, 83, 82⟩

/-- Modelled from the spec: field-wise comparison of a loaded fingerprint
against the compiled-in expected value. -/
def FingerPrint.TestContractor (loaded valid : FingerPrint) : Bool :=
  decide (loaded = valid)

def encFP (fp : FingerPrint) : List Nat :=
  [fp.formatId, fp.version, fp.buildSignature]

def decFP (ws : List Nat) : FingerPrint :=
  ⟨ws.getD 0 0, ws.getD 1 0, ws.getD 2 0⟩

/-- Modelled from the spec: on-disk raw node record (lon, lat, external id,
barrier flag, traffic-light flag); extractor/external_memory_node.hpp is not
among the sources. -/
structure ExternalMemoryNode where
  lon : Nat
  lat : Nat
  node_id : Nat
  barrier : Bool
  traffic_lights : Bool
deriving DecidableEq

def dNode : ExternalMemoryNode := ⟨0, 0, 0, false, false⟩

def encNode (r : ExternalMemoryNode) : List Nat :=
  [r.lon, r.lat, r.node_id, if r.barrier then 1 else 0,
   if r.traffic_lights then 1 else 0]

def decNode (ws : List Nat) : ExternalMemoryNode :=
  ⟨ws.getD 0 0, ws.getD 1 0, ws.getD 2 0, ws.getD 3 0 != 0, ws.getD 4 0 != 0⟩

def encNodeList : List ExternalMemoryNode → List Nat
  | [] => []
  | r :: rs => encNode r ++ encNodeList rs

/-- Modelled from the spec: public routable node (lon, lat, external id);
extractor/query_node.hpp is not among the sources. -/
structure QueryNode where
  lon : Nat
  lat : Nat
  node_id : Nat
deriving DecidableEq

/-- The public node built from a raw record, as in
node_array.emplace_back(current_node.lon, current_node.lat,
current_node.node_id). -/
def queryOf (r : ExternalMemoryNode) : QueryNode := ⟨r.lon, r.lat, r.node_id⟩

def dQuery : QueryNode := ⟨0, 0, 0⟩

/-- Modelled from the spec: edge record (source, target, weight, forward flag,
travel mode); extractor/node_based_edge.hpp is not among the sources. -/
structure NodeBasedEdge where
  source : Nat
  target : Nat
  weight : Nat
  forward : Bool
  travel_mode : Nat
deriving DecidableEq

def TRAVEL_MODE_INACCESSIBLE : Nat := 0

/-- Modelled from the spec: the value a default-constructed edge slot holds
after std::vector::resize. -/
def defaultEdge : NodeBasedEdge := ⟨0, 0, 0, false, 0⟩

def encEdge (e : NodeBasedEdge) : List Nat :=
  [e.source, e.target, e.weight, if e.forward then 1 else 0, e.travel_mode]

def decEdge (ws : List Nat) : NodeBasedEdge :=
  ⟨ws.getD 0 0, ws.getD 1 0, ws.getD 2 0, ws.getD 3 0 != 0, ws.getD 4 0⟩

def encEdgeList : List NodeBasedEdge → List Nat
  | [] => []
  | e :: es => encEdge e ++ encEdgeList es

def decEdgeList : Nat → List Nat → List NodeBasedEdge
  | 0, _ => []
  | m + 1, ws => decEdge (ws.take 5) :: decEdgeList m (ws.drop 5)

/-- Modelled from the spec: turn restriction record over three internal node
ids (via, from, to); extractor/restriction.hpp is not among the sources. -/
structure TurnRestriction where
  viaNode : Nat
  fromNode : Nat
  toNode : Nat
deriving DecidableEq

def defaultRestriction : TurnRestriction := ⟨0, 0, 0⟩

def decRestrictionList : Nat → List Nat → List TurnRestriction
  | 0, _ => []
  | m + 1, ws =>
    (⟨ws.getD 0 0, ws.getD 1 0, ws.getD 2 0⟩ : TurnRestriction) ::
      decRestrictionList m (ws.drop 3)

/-- A std::istream over words: remaining data plus the fail state. -/
structure IStr where
  data : List Nat
  fail : Bool
deriving DecidableEq

/-- One std::istream::read of a fixed number of words (the length of old, the
current contents of the destination object): on a failed stream the
destination is left unchanged; on a short read the available words are
transferred, the tail of the destination keeps its previous contents and the
fail state is set; no error is reported to the caller in either case. -/
def IStr.readWords (s : IStr) (old : List Nat) : IStr × List Nat :=
  if s.fail then (s, old)
  else if old.length ≤ s.data.length then
    (⟨s.data.drop old.length, false⟩, s.data.take old.length)
  else
    (⟨[], true⟩, s.data ++ old.drop s.data.length)

/-- State of the node-reading loop: the stream, the current_node local that
each record is read into, and the three output containers. -/
structure LoopState where
  stream : IStr
  cur : ExternalMemoryNode
  barrier : List Nat
  traffic : List Nat
  arr : List QueryNode
deriving DecidableEq

/-- One iteration of the node loop of loadNodesFromFile: read a raw record
into current_node, append the public node, and append the index i to the
barrier and traffic-light lists when the corresponding flags are set. -/
def stepNode (i : Nat) (st : LoopState) : LoopState :=
  let rd := st.stream.readWords (encNode st.cur)
  let nd := decNode rd.2
  ⟨rd.1, nd,
    if nd.barrier then st.barrier ++ [i] else st.barrier,
    if nd.traffic_lights then st.traffic ++ [i] else st.traffic,
    st.arr ++ [queryOf nd]⟩

def loadNodesLoop : Nat → Nat → LoopState → LoopState
  | 0, _, st => st
  | k + 1, i, st => loadNodesLoop k (i + 1) (stepNode i st)

structure NodeLoadResult where
  stream : IStr
  n : Nat
  barrier_node_list : List Nat
  traffic_light_node_list : List Nat
  node_array : List QueryNode
  warned : Bool
deriving DecidableEq

/-- Shallow embedding of loadNodesFromFile (util/graph_loader.hpp): reads the
fingerprint (mismatch only logs a warning, recorded in the warned field),
reads the node count n, then iterates n times appending to the three
containers passed by the caller; jfp, jn and jnode model the indeterminate
initial contents of the stack locals the stream reads into. -/
def loadNodesFromFile (s : IStr) (jfp : FingerPrint) (jn : Nat)
    (jnode : ExternalMemoryNode) (barrier_node_list : List Nat)
    (traffic_light_node_list : List Nat) (node_array : List QueryNode) :
    NodeLoadResult :=
  let rd1 := s.readWords (encFP jfp)
  let fingerprint_loaded := decFP rd1.2
  let warned := ! fingerprint_loaded.TestContractor FingerPrint.GetValid
  let rd2 := rd1.1.readWords [jn]
  let n := rd2.2.headD jn
  let z := loadNodesLoop n 0
    ⟨rd2.1, jnode, barrier_node_list, traffic_light_node_list, node_array⟩
  ⟨z.stream, n, z.barrier, z.traffic, z.arr, warned⟩

/-- Outcome of a call that can hit a BOOST_ASSERT: fatal models the process
abort of a failed assertion in a non-optimized build. -/
inductive LoadOutcome (α : Type) where
  | ok (value : α)
  | fatal
deriving DecidableEq

def LoadOutcome.isFatal {α : Type} : LoadOutcome α → Bool
  | .ok _ => false
  | .fatal => true

/-- The comparator passed to the sort in the validation block of
loadEdgesFromFile. -/
def edgeLt (lhs rhs : NodeBasedEdge) : Bool :=
  decide (lhs.source < rhs.source) ||
    (decide (lhs.source = rhs.source) && decide (lhs.target < rhs.target))

def insertE (e : NodeBasedEdge) : List NodeBasedEdge → List NodeBasedEdge
  | [] => [e]
  | x :: xs => if edgeLt e x then e :: x :: xs else x :: insertE e xs

/-- Comparison sort under edgeLt; stands in for tbb::parallel_sort, whose
output is a reordering of the input sorted under the same comparator. -/
def sortEdges : List NodeBasedEdge → List NodeBasedEdge
  | [] => []
  | x :: xs => insertE x (sortEdges xs)

/-- The per-edge BOOST_ASSERT conditions of the validation loop body that
mention only the edge at position i: positive weight, forward orientation,
accessible travel mode, no self-loop. -/
def edgeOk (e : NodeBasedEdge) : Bool :=
  decide (0 < e.weight) && e.forward &&
    decide (e.travel_mode ≠ TRAVEL_MODE_INACCESSIBLE) &&
    decide (e.source ≠ e.target)

/-- The BOOST_ASSERT condition on the pair (edge at i - 1, edge at i): not a
duplicate (source, target) pair. -/
def pairOk (prev_edge e : NodeBasedEdge) : Bool :=
  decide (e.source ≠ prev_edge.source) || decide (e.target ≠ prev_edge.target)

/-- The validation loop for i = 1 .. size - 1 over the sorted edges, with
prev_edge the edge at i - 1; returns false when some assertion fails. -/
def scanEdges : NodeBasedEdge → List NodeBasedEdge → Bool
  | _, [] => true
  | prev_edge, e :: rest =>
    if edgeOk e && pairOk prev_edge e then scanEdges e rest else false

/-- The ifndef-NDEBUG block of loadEdgesFromFile after the sort: scan adjacent
pairs; any failed assertion aborts the process. -/
def edgeValidate (s : IStr) (m : Nat) (sorted : List NodeBasedEdge) :
    LoadOutcome (IStr × Nat × List NodeBasedEdge) :=
  match sorted with
  | [] => .ok (s, m, [])
  | p :: rest => if scanEdges p rest then .ok (s, m, p :: rest) else .fatal

/-- Shallow embedding of loadEdgesFromFile (util/graph_loader.hpp): reads the
edge count m, resizes the edge container to m, bulk-reads m records over its
backing storage, and, when assertions are compiled in (validate = true, the
non-optimized build), asserts the container nonempty, sorts it in place with
edgeLt and scans adjacent entries for the per-edge invariants; jm models the
indeterminate initial value of the local count variable. -/
def loadEdgesFromFile (validate : Bool) (s : IStr) (jm : Nat)
    (edge_list : List NodeBasedEdge) :
    LoadOutcome (IStr × Nat × List NodeBasedEdge) :=
  let rd1 := s.readWords [jm]
  let m := rd1.2.headD jm
  let resized :=
    (edge_list ++ List.replicate (m - edge_list.length) defaultEdge).take m
  let rd2 := rd1.1.readWords (encEdgeList resized)
  let loaded := decEdgeList m rd2.2
  if validate then
    if m = 0 then .fatal
    else edgeValidate rd2.1 m (sortEdges loaded)
  else .ok (rd2.1, m, loaded)

inductive FileError where
  | fingerprintMismatch
  | formatError
deriving DecidableEq

/-- Modelled from the spec: storage::io::FileReader (storage/io.hpp is not
among the sources). Opening with mandatory verification reads the fingerprint
tag and fails closed on mismatch, before any further data is read. -/
structure FileReader where
  data : List Nat
deriving DecidableEq

def fileReaderOpen (verify : Bool) (data : List Nat) :
    Except FileError FileReader :=
  if verify then
    if 3 ≤ data.length then
      if decFP (data.take 3) = FingerPrint.GetValid then .ok ⟨data.drop 3⟩
      else .error .fingerprintMismatch
    else .error .formatError
  else .ok ⟨data⟩

/-- Modelled from the spec: ReadElementCount32 decodes one fixed-width count,
advancing the stream. -/
def FileReader.ReadElementCount32 (f : FileReader) :
    Except FileError (FileReader × Nat) :=
  match f.data with
  | [] => .error .formatError
  | c :: rest => .ok (⟨rest⟩, c)

/-- Modelled from the spec: ReadInto fails with a format error when fewer
words remain than requested. -/
def FileReader.ReadInto (f : FileReader) (k : Nat) :
    Except FileError (FileReader × List Nat) :=
  if k ≤ f.data.length then .ok (⟨f.data.drop k⟩, f.data.take k)
  else .error .formatError

/-- Shallow embedding of loadRestrictionsFromFile (util/graph_loader.hpp):
opens the file with mandatory fingerprint verification, reads the count,
resizes the list to it and bulk-reads that many records into it. The second
component is the final contents of the by-reference list argument; an error
thrown before the resize leaves it unchanged. -/
def loadRestrictionsFromFile (data : List Nat)
    (restriction_list : List TurnRestriction) :
    Except FileError Nat × List TurnRestriction :=
  match fileReaderOpen true data with
  | .error e => (.error e, restriction_list)
  | .ok file =>
    match file.ReadElementCount32 with
    | .error e => (.error e, restriction_list)
    | .ok (f1, number_of_usable_restrictions) =>
      let resized := (restriction_list ++
        List.replicate (number_of_usable_restrictions - restriction_list.length)
          defaultRestriction).take number_of_usable_restrictions
      if 0 < number_of_usable_restrictions then
        match f1.ReadInto (number_of_usable_restrictions * 3) with
        | .error e => (.error e, resized)
        | .ok (_, ws) => (.ok number_of_usable_restrictions,
            decRestrictionList number_of_usable_restrictions ws)
      else (.ok number_of_usable_restrictions, resized)

/-- Indices i, i + 1, ... of the records whose flag f is set: the contents the
node loop appends to a derived list when started at index i. -/
def flagIdsFrom (f : ExternalMemoryNode → Bool) :
    Nat → List ExternalMemoryNode → List Nat
  | _, [] => []
  | i, r :: rs => (if f r then [i] else []) ++ flagIdsFrom f (i + 1) rs

/-- The value current_node holds after reading a list of records, starting
from c. -/
def lastD : ExternalMemoryNode → List ExternalMemoryNode → ExternalMemoryNode
  | c, [] => c
  | _, r :: rs => lastD r rs

/-- Pair (source, target): the key the validation sort orders by and the
duplicate check compares. -/
def keyOf (e : NodeBasedEdge) : Nat × Nat := (e.source, e.target)

/-- Order actually guaranteed for the sorted container: a stands no later
than b exactly when the comparator does not put b strictly before a. -/
def edgeLeP (a b : NodeBasedEdge) : Prop := edgeLt b a = false

/-- A well-formed node section of the .osrm stream: fingerprint, count n, then
exactly n full records, followed by the rest of the stream. -/
def wfNodeStream (fp : FingerPrint) (recs : List ExternalMemoryNode)
    (rest : List Nat) : IStr :=
  ⟨encFP fp ++ recs.length :: (encNodeList recs ++ rest), false⟩

/-- A well-formed edge section of the .osrm stream: count m, then exactly m
full records, followed by the rest of the stream. -/
def wfEdgeStream (edges : List NodeBasedEdge) (rest : List Nat) : IStr :=
  ⟨edges.length :: (encEdgeList edges ++ rest), false⟩

theorem encFP_length (fp : FingerPrint) : (encFP fp).length = 3 := rfl

theorem decFP_encFP (fp : FingerPrint) : decFP (encFP fp) = fp := rfl

theorem encNode_length (r : ExternalMemoryNode) : (encNode r).length = 5 := rfl

theorem decNode_encNode (r : ExternalMemoryNode) : decNode (encNode r) = r := by
  cases r with
  | mk lon lat node_id b t => cases b <;> cases t <;> rfl

theorem encEdge_length (e : NodeBasedEdge) : (encEdge e).length = 5 := rfl

theorem decEdge_encEdge (e : NodeBasedEdge) : decEdge (encEdge e) = e := by
  cases e with
  | mk s t w f m => cases f <;> rfl

theorem encNodeList_length (recs : List ExternalMemoryNode) :
    (encNodeList recs).length = 5 * recs.length := by
  induction recs with
  | nil => rfl
  | cons r rs ih => simp [encNodeList, List.length_append, encNode_length, ih]; ring

theorem encEdgeList_length (es : List NodeBasedEdge) :
    (encEdgeList es).length = 5 * es.length := by
  induction es with
  | nil => rfl
  | cons e es ih => simp [encEdgeList, List.length_append, encEdge_length, ih]; ring

theorem decEdgeList_encEdgeList (es : List NodeBasedEdge) :
    decEdgeList es.length (encEdgeList es) = es := by
  induction es with
  | nil => rfl
  | cons e es ih =>
    have htake : (encEdge e ++ encEdgeList es).take 5 = encEdge e := by
      rw [show (5 : Nat) = (encEdge e).length from rfl]
      exact List.take_left (encEdge e) (encEdgeList es)
    have hdrop : (encEdge e ++ encEdgeList es).drop 5 = encEdgeList es := by
      rw [show (5 : Nat) = (encEdge e).length from rfl]
      exact List.drop_left (encEdge e) (encEdgeList es)
    simp [decEdgeList, encEdgeList, htake, hdrop, decEdge_encEdge, ih]

theorem decEdgeList_length (m : Nat) : ∀ ws : List Nat, (decEdgeList m ws).length = m := by
  induction m with
  | zero => intro ws; rfl
  | succ m ih => intro ws; simp [decEdgeList, ih]

theorem readWords_exact (pre rest old : List Nat) (h : old.length = pre.length) :
    IStr.readWords ⟨pre ++ rest, false⟩ old = (⟨rest, false⟩, pre) := by
  have hle : pre.length ≤ (pre ++ rest).length := by
    rw [List.length_append]; omega
  simp only [IStr.readWords, Bool.false_eq_true, if_false, h, if_pos hle,
    List.take_left, List.drop_left]

theorem stepNode_exact (i : Nat) (r : ExternalMemoryNode) (tail : List Nat)
    (cur : ExternalMemoryNode) (b t : List Nat) (arr : List QueryNode) :
    stepNode i ⟨⟨encNode r ++ tail, false⟩, cur, b, t, arr⟩ =
      ⟨⟨tail, false⟩, r,
        if r.barrier then b ++ [i] else b,
        if r.traffic_lights then t ++ [i] else t,
        arr ++ [queryOf r]⟩ := by
  have h := readWords_exact (encNode r) tail (encNode cur) rfl
  simp [stepNode, h, decNode_encNode]

theorem loadNodesLoop_spec (recs : List ExternalMemoryNode) :
    ∀ (rest : List Nat) (i : Nat) (cur : ExternalMemoryNode) (b t : List Nat)
      (arr : List QueryNode),
    loadNodesLoop recs.length i ⟨⟨encNodeList recs ++ rest, false⟩, cur, b, t, arr⟩ =
      ⟨⟨rest, false⟩, lastD cur recs,
        b ++ flagIdsFrom (fun r => r.barrier) i recs,
        t ++ flagIdsFrom (fun r => r.traffic_lights) i recs,
        arr ++ recs.map queryOf⟩ := by
  induction recs with
  | nil => intro rest i cur b t arr; simp [loadNodesLoop, encNodeList, flagIdsFrom, lastD]
  | cons r rs ih =>
    intro rest i cur b t arr
    have h0 : loadNodesLoop (r :: rs).length i
        ⟨⟨encNodeList (r :: rs) ++ rest, false⟩, cur, b, t, arr⟩ =
        loadNodesLoop rs.length (i + 1)
          (stepNode i ⟨⟨encNode r ++ (encNodeList rs ++ rest), false⟩, cur, b, t, arr⟩) := by
      simp [loadNodesLoop, encNodeList, List.append_assoc]
    rw [h0, stepNode_exact, ih]
    cases hb : r.barrier <;> cases ht : r.traffic_lights <;>
      simp [flagIdsFrom, lastD, hb, ht, List.append_assoc]

theorem loadNodesFromFile_spec (fp : FingerPrint) (recs : List ExternalMemoryNode)
    (rest : List Nat) (jfp : FingerPrint) (jn : Nat) (jnode : ExternalMemoryNode)
    (b t : List Nat) (arr : List QueryNode) :
    loadNodesFromFile ⟨encFP fp ++ recs.length :: (encNodeList recs ++ rest), false⟩
        jfp jn jnode b t arr =
      ⟨⟨rest, false⟩, recs.length,
        b ++ flagIdsFrom (fun r => r.barrier) 0 recs,
        t ++ flagIdsFrom (fun r => r.traffic_lights) 0 recs,
        arr ++ recs.map queryOf,
        ! fp.TestContractor FingerPrint.GetValid⟩ := by
  have h1 := readWords_exact (encFP fp) (recs.length :: (encNodeList recs ++ rest))
    (encFP jfp) rfl
  have h2 : IStr.readWords ⟨recs.length :: (encNodeList recs ++ rest), false⟩ [jn] =
      (⟨encNodeList recs ++ rest, false⟩, [recs.length]) := by
    have := readWords_exact [recs.length] (encNodeList recs ++ rest) [jn] rfl
    simpa using this
  have h3 := loadNodesLoop_spec recs rest 0 jnode b t arr
  simp [loadNodesFromFile, h1, h2, h3, decFP_encFP]

theorem mem_flagIdsFrom (f : ExternalMemoryNode → Bool)
    (recs : List ExternalMemoryNode) :
    ∀ (i j : Nat), j ∈ flagIdsFrom f i recs ↔
      ∃ k, k < recs.length ∧ j = i + k ∧ f (recs.getD k dNode) = true := by
  induction recs with
  | nil => intro i j; simp [flagIdsFrom]
  | cons r rs ih =>
    intro i j
    rw [show flagIdsFrom f i (r :: rs) =
      (if f r then [i] else []) ++ flagIdsFrom f (i + 1) rs from rfl]
    rw [List.mem_append, ih (i + 1) j]
    constructor
    · intro h
      rcases h with h | ⟨k, hk, hj, hf⟩
      · by_cases hf : f r = true
        · have hj : j = i := by simp [hf] at h; exact h
          exact ⟨0, by simp, by omega, by simpa using hf⟩
        · simp [hf] at h
      · exact ⟨k + 1, by simp; omega, by omega, by simpa using hf⟩
    · rintro ⟨k, hk, hj, hf⟩
      cases k with
      | zero =>
        left
        have hfr : f r = true := by simpa using hf
        simp [hfr]; omega
      | succ k =>
        right
        refine ⟨k, by simp at hk; omega, by omega, by simpa using hf⟩

theorem pairwise_flagIdsFrom (f : ExternalMemoryNode → Bool)
    (recs : List ExternalMemoryNode) :
    ∀ i : Nat, (flagIdsFrom f i recs).Pairwise (· < ·) := by
  induction recs with
  | nil => intro i; simp [flagIdsFrom]
  | cons r rs ih =>
    intro i
    rw [show flagIdsFrom f i (r :: rs) =
      (if f r then [i] else []) ++ flagIdsFrom f (i + 1) rs from rfl]
    refine List.pairwise_append.mpr ⟨?_, ih (i + 1), ?_⟩
    · by_cases hf : f r = true <;> simp [hf]
    · intro a ha b hb
      rcases (mem_flagIdsFrom f rs (i + 1) b).mp hb with ⟨k, _, hbk, _⟩
      by_cases hf : f r = true
      · have ha' : a = i := by simp [hf] at ha; exact ha
        omega
      · simp [hf] at ha

theorem stepNode_acc (i : Nat) (s : IStr) (cur : ExternalMemoryNode)
    (b t : List Nat) (arr : List QueryNode) :
    stepNode i ⟨s, cur, b, t, arr⟩ =
      ⟨(stepNode i ⟨s, cur, [], [], []⟩).stream,
       (stepNode i ⟨s, cur, [], [], []⟩).cur,
       b ++ (stepNode i ⟨s, cur, [], [], []⟩).barrier,
       t ++ (stepNode i ⟨s, cur, [], [], []⟩).traffic,
       arr ++ (stepNode i ⟨s, cur, [], [], []⟩).arr⟩ := by
  cases hb : (decNode (IStr.readWords s (encNode cur)).2).barrier <;>
  cases ht : (decNode (IStr.readWords s (encNode cur)).2).traffic_lights <;>
    simp [stepNode, hb, ht]

theorem loadNodesLoop_acc (k : Nat) :
    ∀ (i : Nat) (s : IStr) (cur : ExternalMemoryNode) (b t : List Nat)
      (arr : List QueryNode),
      loadNodesLoop k i ⟨s, cur, b, t, arr⟩ =
        ⟨(loadNodesLoop k i ⟨s, cur, [], [], []⟩).stream,
         (loadNodesLoop k i ⟨s, cur, [], [], []⟩).cur,
         b ++ (loadNodesLoop k i ⟨s, cur, [], [], []⟩).barrier,
         t ++ (loadNodesLoop k i ⟨s, cur, [], [], []⟩).traffic,
         arr ++ (loadNodesLoop k i ⟨s, cur, [], [], []⟩).arr⟩ := by
  induction k with
  | zero => intro i s cur b t arr; simp [loadNodesLoop]
  | succ k ih =>
    intro i s cur b t arr
    rw [show loadNodesLoop (k + 1) i ⟨s, cur, b, t, arr⟩ =
      loadNodesLoop k (i + 1) (stepNode i ⟨s, cur, b, t, arr⟩) from rfl]
    rw [show loadNodesLoop (k + 1) i ⟨s, cur, [], [], []⟩ =
      loadNodesLoop k (i + 1) (stepNode i ⟨s, cur, [], [], []⟩) from rfl]
    rw [stepNode_acc]
    rcases hz : stepNode i ⟨s, cur, [], [], []⟩ with ⟨zs, zc, zb, zt, za⟩
    rw [ih (i + 1) zs zc (b ++ zb) (t ++ zt) (arr ++ za), ih (i + 1) zs zc zb zt za]
    simp [List.append_assoc]

theorem loadNodesLoop_arr_length (k : Nat) :
    ∀ (i : Nat) (st : LoopState),
      (loadNodesLoop k i st).arr.length = st.arr.length + k := by
  induction k with
  | zero => intro i st; simp [loadNodesLoop]
  | succ k ih =>
    intro i st
    rw [show loadNodesLoop (k + 1) i st = loadNodesLoop k (i + 1) (stepNode i st) from rfl,
      ih]
    simp [stepNode]
    omega

theorem edgeLt_irrefl (a : NodeBasedEdge) : edgeLt a a = false := by
  simp [edgeLt]

theorem edgeLt_asymm {a b : NodeBasedEdge} (h : edgeLt a b = true) :
    edgeLt b a = false := by
  simp [edgeLt] at h ⊢
  omega

theorem edgeLt_cross {e x b : NodeBasedEdge} (h1 : edgeLt e x = true)
    (h2 : edgeLt b x = false) : edgeLt b e = false := by
  simp [edgeLt] at h1 h2 ⊢
  omega

theorem insertE_perm (e : NodeBasedEdge) (l : List NodeBasedEdge) :
    List.Perm (insertE e l) (e :: l) := by
  induction l with
  | nil => simp [insertE]
  | cons x xs ih =>
    by_cases h : edgeLt e x = true
    · simp [insertE, h]
    · have h' : edgeLt e x = false := by revert h; cases edgeLt e x <;> simp
      rw [show insertE e (x :: xs) = x :: insertE e xs from by simp [insertE, h']]
      exact (ih.cons x).trans (List.Perm.swap e x xs)

theorem pairwise_insertE (e : NodeBasedEdge) (l : List NodeBasedEdge)
    (h : l.Pairwise edgeLeP) : (insertE e l).Pairwise edgeLeP := by
  induction l with
  | nil => simp [insertE]
  | cons x xs ih =>
    rcases List.pairwise_cons.mp h with ⟨hx, hxs⟩
    by_cases hlt : edgeLt e x = true
    · rw [show insertE e (x :: xs) = e :: x :: xs from by simp [insertE, hlt]]
      refine List.pairwise_cons.mpr ⟨?_, h⟩
      intro b hb
      rcases List.mem_cons.mp hb with rfl | hb'
      · exact edgeLt_asymm hlt
      · exact edgeLt_cross hlt (hx b hb')
    · have hlt' : edgeLt e x = false := by revert hlt; cases edgeLt e x <;> simp
      rw [show insertE e (x :: xs) = x :: insertE e xs from by simp [insertE, hlt']]
      refine List.pairwise_cons.mpr ⟨?_, ih hxs⟩
      intro b hb
      have hb' := (insertE_perm e xs).mem_iff.mp hb
      rcases List.mem_cons.mp hb' with rfl | hb''
      · exact hlt'
      · exact hx b hb''

theorem sortEdges_perm (l : List NodeBasedEdge) : List.Perm (sortEdges l) l := by
  induction l with
  | nil => simp [sortEdges]
  | cons x xs ih => exact (insertE_perm x (sortEdges xs)).trans (ih.cons x)

theorem pairwise_sortEdges (l : List NodeBasedEdge) :
    (sortEdges l).Pairwise edgeLeP := by
  induction l with
  | nil => simp [sortEdges]
  | cons x xs ih => exact pairwise_insertE x (sortEdges xs) ih

theorem edgeOk_of_selfLoop {e : NodeBasedEdge} (h : e.source = e.target) :
    edgeOk e = false := by
  simp [edgeOk, h]

theorem scanEdges_mem {l : List NodeBasedEdge} :
    ∀ {p : NodeBasedEdge}, scanEdges p l = true → ∀ x ∈ l, edgeOk x = true := by
  induction l with
  | nil => intro p _ x hx; simp at hx
  | cons e rest ih =>
    intro p h x hx
    by_cases hc : (edgeOk e && pairOk p e) = true
    · have h' : scanEdges e rest = true := by simpa [scanEdges, hc] using h
      rcases List.mem_cons.mp hx with rfl | hx'
      · exact (by simpa using hc : edgeOk x = true ∧ pairOk p x = true).1
      · exact ih h' x hx'
    · simp [scanEdges, hc] at h

theorem pairOk_keyNe {p x : NodeBasedEdge} (h : pairOk p x = true) :
    keyOf p ≠ keyOf x := by
  simp [pairOk] at h
  simp [keyOf, Prod.ext_iff]
  omega

theorem keyNe_of_lt_le {p x b : NodeBasedEdge} (h1 : edgeLeP p x)
    (h2 : keyOf p ≠ keyOf x) (h3 : edgeLeP x b) : keyOf p ≠ keyOf b := by
  unfold edgeLeP at h1 h3
  simp [edgeLt] at h1 h3
  simp [keyOf, Prod.ext_iff] at h2 ⊢
  omega

theorem scanEdges_keyNe (l : List NodeBasedEdge) :
    ∀ p, scanEdges p l = true → (p :: l).Pairwise edgeLeP →
      (p :: l).Pairwise (fun a b => keyOf a ≠ keyOf b) := by
  induction l with
  | nil => intro p _ _; simp
  | cons x rest ih =>
    intro p hscan hpw
    have hcond : (edgeOk x && pairOk p x) = true := by
      by_cases hc : (edgeOk x && pairOk p x) = true
      · exact hc
      · simp [scanEdges, hc] at hscan
    have hscan' : scanEdges x rest = true := by
      simpa [scanEdges, hcond] using hscan
    rcases List.pairwise_cons.mp hpw with ⟨hp, hxs⟩
    have ihx := ih x hscan' hxs
    refine List.pairwise_cons.mpr ⟨?_, ihx⟩
    intro b hb
    have hkpx : keyOf p ≠ keyOf x :=
      pairOk_keyNe (by simpa using hcond : edgeOk x = true ∧ pairOk p x = true).2
    rcases List.mem_cons.mp hb with rfl | hb'
    · exact hkpx
    · have hlepx : edgeLeP p x := hp x (List.mem_cons_self x rest)
      have hlexb : edgeLeP x b := (List.pairwise_cons.mp hxs).1 b hb'
      exact keyNe_of_lt_le hlepx hkpx hlexb

theorem resize_take_length {α : Type} (l : List α) (m : Nat) (d : α) :
    ((l ++ List.replicate (m - l.length) d).take m).length = m := by
  rw [List.length_take, List.length_append, List.length_replicate]
  omega

theorem loadEdges_release (edges : List NodeBasedEdge) (rest : List Nat)
    (jm : Nat) (edge_list : List NodeBasedEdge) :
    loadEdgesFromFile false (wfEdgeStream edges rest) jm edge_list =
      .ok (⟨rest, false⟩, edges.length, edges) := by
  have h1 : IStr.readWords ⟨edges.length :: (encEdgeList edges ++ rest), false⟩ [jm] =
      (⟨encEdgeList edges ++ rest, false⟩, [edges.length]) := by
    simpa using readWords_exact [edges.length] (encEdgeList edges ++ rest) [jm] rfl
  have h2 : IStr.readWords ⟨encEdgeList edges ++ rest, false⟩
      (encEdgeList ((edge_list ++
        List.replicate (edges.length - edge_list.length) defaultEdge).take
          edges.length)) = (⟨rest, false⟩, encEdgeList edges) :=
    readWords_exact (encEdgeList edges) rest _
      (by rw [encEdgeList_length, encEdgeList_length, resize_take_length])
  simp [loadEdgesFromFile, wfEdgeStream, h1, h2, decEdgeList_encEdgeList]

theorem loadEdges_debug (edges : List NodeBasedEdge) (rest : List Nat)
    (jm : Nat) (edge_list : List NodeBasedEdge) (hm : edges.length ≠ 0) :
    loadEdgesFromFile true (wfEdgeStream edges rest) jm edge_list =
      edgeValidate ⟨rest, false⟩ edges.length (sortEdges edges) := by
  have h1 : IStr.readWords ⟨edges.length :: (encEdgeList edges ++ rest), false⟩ [jm] =
      (⟨encEdgeList edges ++ rest, false⟩, [edges.length]) := by
    simpa using readWords_exact [edges.length] (encEdgeList edges ++ rest) [jm] rfl
  have h2 : IStr.readWords ⟨encEdgeList edges ++ rest, false⟩
      (encEdgeList ((edge_list ++
        List.replicate (edges.length - edge_list.length) defaultEdge).take
          edges.length)) = (⟨rest, false⟩, encEdgeList edges) :=
    readWords_exact (encEdgeList edges) rest _
      (by rw [encEdgeList_length, encEdgeList_length, resize_take_length])
  simp [loadEdgesFromFile, wfEdgeStream, h1, h2, decEdgeList_encEdgeList, hm]

theorem loadEdges_release_any (cnt : Nat) (body : List Nat) (jm : Nat)
    (edge_list : List NodeBasedEdge) :
    ∃ s2 l, loadEdgesFromFile false ⟨cnt :: body, false⟩ jm edge_list =
      .ok (s2, cnt, l) ∧ l.length = cnt := by
  have h1 : IStr.readWords ⟨cnt :: body, false⟩ [jm] = (⟨body, false⟩, [cnt]) := by
    simpa using readWords_exact [cnt] body [jm] rfl
  refine ⟨(IStr.readWords ⟨body, false⟩ (encEdgeList ((edge_list ++
      List.replicate (cnt - edge_list.length) defaultEdge).take cnt))).1,
    decEdgeList cnt (IStr.readWords ⟨body, false⟩ (encEdgeList ((edge_list ++
      List.replicate (cnt - edge_list.length) defaultEdge).take cnt))).2,
    ?_, decEdgeList_length cnt _⟩
  simp [loadEdgesFromFile, h1]

theorem fileReaderOpen_valid (tail : List Nat) :
    fileReaderOpen true (encFP FingerPrint.GetValid ++ tail) =
      .ok ⟨tail⟩ := by
  have h3 : 3 ≤ (encFP FingerPrint.GetValid ++ tail).length := by
    rw [List.length_append, encFP_length]; omega
  have htake : (encFP FingerPrint.GetValid ++ tail).take 3 =
      encFP FingerPrint.GetValid := by
    rw [show (3 : Nat) = (encFP FingerPrint.GetValid).length from rfl]
    exact List.take_left _ _
  have hdrop : (encFP FingerPrint.GetValid ++ tail).drop 3 = tail := by
    rw [show (3 : Nat) = (encFP FingerPrint.GetValid).length from rfl]
    exact List.drop_left _ _
  have h3x : 3 ≤ (encFP FingerPrint.GetValid).length + tail.length := by
    simpa using h3
  simp [fileReaderOpen, h3, h3x, htake, hdrop, decFP_encFP]

/-- Claim C1, counterexample: a node stream whose declared count (5) exceeds
the available bytes (no records at all) does not make the node loader fail:
the call returns normally with n = 5 and a 5-element node container of
indeterminate contents; only the stream fail state records the short read,
and nothing of it is surfaced to the caller. -/
theorem C1_counterexample :
    (loadNodesFromFile ⟨encFP FingerPrint.GetValid ++ [5], false⟩ ⟨0, 0, 0⟩ 0 dNode
      [] [] []).n = 5 ∧
    (loadNodesFromFile ⟨encFP FingerPrint.GetValid ++ [5], false⟩ ⟨0, 0, 0⟩ 0 dNode
      [] [] []).node_array.length = 5 ∧
    (loadNodesFromFile ⟨encFP FingerPrint.GetValid ++ [5], false⟩ ⟨0, 0, 0⟩ 0 dNode
      [] [] []).stream.fail = true := by decide

/-- Claim C1 (amended): on a declared count exceeding the available bytes,
only the restriction loader fails (with a format error); the node loader
returns the declared count n with exactly n nodes appended regardless of how
many records are available, and the edge loader (validation disabled) returns
the declared count m with a container of exactly m elements. -/
theorem C1_amended_truncation :
    (∀ (cnt : Nat) (body : List Nat) (restriction_list : List TurnRestriction),
       0 < cnt → body.length < cnt * 3 →
       (loadRestrictionsFromFile (encFP FingerPrint.GetValid ++ cnt :: body)
         restriction_list).1 = .error .formatError) ∧
    (∀ (fp : FingerPrint) (n : Nat) (body : List Nat) (jfp : FingerPrint)
       (jn : Nat) (jnode : ExternalMemoryNode) (b t : List Nat)
       (arr : List QueryNode),
       (loadNodesFromFile ⟨encFP fp ++ n :: body, false⟩ jfp jn jnode b t arr).n = n ∧
       (loadNodesFromFile ⟨encFP fp ++ n :: body, false⟩ jfp jn jnode b t
         arr).node_array.length = arr.length + n) ∧
    (∀ (cnt : Nat) (body : List Nat) (jm : Nat) (edge_list : List NodeBasedEdge),
       ∃ s2 l, loadEdgesFromFile false ⟨cnt :: body, false⟩ jm edge_list =
         .ok (s2, cnt, l) ∧ l.length = cnt) := by
  refine ⟨?_, ?_, fun cnt body jm el => loadEdges_release_any cnt body jm el⟩
  · intro cnt body rl hc hlen
    have hopen := fileReaderOpen_valid (cnt :: body)
    simp only [loadRestrictionsFromFile, hopen, FileReader.ReadElementCount32]
    rw [if_pos hc]
    simp only [FileReader.ReadInto]
    rw [if_neg (by omega)]
  · intro fp n body jfp jn jnode b t arr
    have h1 := readWords_exact (encFP fp) (n :: body) (encFP jfp) rfl
    have h2 : IStr.readWords ⟨n :: body, false⟩ [jn] = (⟨body, false⟩, [n]) := by
      simpa using readWords_exact [n] body [jn] rfl
    constructor
    · simp [loadNodesFromFile, h1, h2]
    · simp [loadNodesFromFile, h1, h2, loadNodesLoop_arr_length]

theorem C1_amended_truncation_witness :
    (loadRestrictionsFromFile (encFP FingerPrint.GetValid ++ 2 :: [9, 9]) []).1 =
      .error .formatError ∧
    (loadNodesFromFile ⟨encFP FingerPrint.GetValid ++ 3 :: [], false⟩ ⟨0, 0, 0⟩ 0
      dNode [] [] []).n = 3 ∧
    (loadNodesFromFile ⟨encFP FingerPrint.GetValid ++ 3 :: [], false⟩ ⟨0, 0, 0⟩ 0
      dNode [] [] []).node_array.length = 0 + 3 ∧
    (∃ s2 l, loadEdgesFromFile false ⟨4 :: [], false⟩ 0 [] = .ok (s2, 4, l) ∧
      l.length = 4) :=
  ⟨C1_amended_truncation.1 2 [9, 9] [] (by decide) (by decide),
   (C1_amended_truncation.2.1 FingerPrint.GetValid 3 [] ⟨0, 0, 0⟩ 0 dNode [] [] []).1,
   (C1_amended_truncation.2.1 FingerPrint.GetValid 3 [] ⟨0, 0, 0⟩ 0 dNode [] [] []).2,
   C1_amended_truncation.2.2 4 [] 0 []⟩

/-- Claim C3, counterexample: the edge stream declaring m = 0 edges with all
m records available does not make the loader return m when validation is
enabled; the size assertion aborts instead, although the same stream loads
fine with validation disabled. -/
theorem C3_counterexample :
    (loadEdgesFromFile true ⟨[0], false⟩ 0 []).isFatal = true ∧
    loadEdgesFromFile false ⟨[0], false⟩ 0 [] = .ok (⟨[], false⟩, 0, []) := by
  decide

/-- Claim C3 (amended): with validation disabled, for every edge stream whose
header declares m edges with m full records available, the edge loader
returns m and the edge container holds exactly the m declared records; with
validation enabled the loader can abort instead (m = 0 fails the nonempty
assertion, and records violating the checked invariants fail them). -/
theorem C3_edge_count_release (edges : List NodeBasedEdge) (rest : List Nat)
    (jm : Nat) (edge_list : List NodeBasedEdge) :
    loadEdgesFromFile false (wfEdgeStream edges rest) jm edge_list =
      .ok (⟨rest, false⟩, edges.length, edges) :=
  loadEdges_release edges rest jm edge_list

/-- Claim C4: for every node stream declaring n nodes with n full records
available, the node loader returns n, the node container (created empty, as
every container in the lifecycle of the spec) has exactly n elements on
return, and the element at position i is the public node built from record i
(lon, lat, external id). -/
theorem C4_node_loader_counts (fp : FingerPrint) (recs : List ExternalMemoryNode)
    (rest : List Nat) (jfp : FingerPrint) (jn : Nat) (jnode : ExternalMemoryNode) :
    (loadNodesFromFile (wfNodeStream fp recs rest) jfp jn jnode [] [] []).n =
      recs.length ∧
    (loadNodesFromFile (wfNodeStream fp recs rest) jfp jn jnode [] [] []).node_array =
      recs.map queryOf ∧
    (loadNodesFromFile (wfNodeStream fp recs rest) jfp jn jnode [] []
      []).node_array.length = recs.length := by
  rw [show wfNodeStream fp recs rest =
    ⟨encFP fp ++ recs.length :: (encNodeList recs ++ rest), false⟩ from rfl,
    loadNodesFromFile_spec]
  simp

/-- Claim C7: a restriction file whose fingerprint does not match the
compiled-in expected value fails closed with a fingerprint error raised at
open, before any count or record is read, and the output list is exactly the
list the caller passed in. -/
theorem C7_restriction_fingerprint (data : List Nat)
    (restriction_list : List TurnRestriction) (h3 : 3 ≤ data.length)
    (hbad : decFP (data.take 3) ≠ FingerPrint.GetValid) :
    loadRestrictionsFromFile data restriction_list =
      (.error .fingerprintMismatch, restriction_list) := by
  have hopen : fileReaderOpen true data = .error .fingerprintMismatch := by
    simp [fileReaderOpen, h3, hbad]
  simp [loadRestrictionsFromFile, hopen]

theorem C7_restriction_fingerprint_witness :
    loadRestrictionsFromFile [9, 9, 9] [⟨1, 2, 3⟩] =
      (.error .fingerprintMismatch, [⟨1, 2, 3⟩]) :=
  C7_restriction_fingerprint [9, 9, 9] [⟨1, 2, 3⟩] (by decide) (by decide)

/-- Claim C8: a node stream with a mismatched fingerprint but well-formed
remaining bytes loads to exactly the same stream position, count and
containers as the same stream carrying the expected fingerprint; the only
difference is the warning, emitted exactly when the field-wise comparison
fails. -/
theorem C8_fingerprint_warn_only (fp : FingerPrint) (recs : List ExternalMemoryNode)
    (rest : List Nat) (jfp jfp2 : FingerPrint) (jn jn2 : Nat)
    (jnode jnode2 : ExternalMemoryNode) :
    (loadNodesFromFile (wfNodeStream fp recs rest) jfp jn jnode [] [] []).n =
      (loadNodesFromFile (wfNodeStream FingerPrint.GetValid recs rest) jfp2 jn2
        jnode2 [] [] []).n ∧
    (loadNodesFromFile (wfNodeStream fp recs rest) jfp jn jnode [] []
      []).barrier_node_list =
      (loadNodesFromFile (wfNodeStream FingerPrint.GetValid recs rest) jfp2 jn2
        jnode2 [] [] []).barrier_node_list ∧
    (loadNodesFromFile (wfNodeStream fp recs rest) jfp jn jnode [] []
      []).traffic_light_node_list =
      (loadNodesFromFile (wfNodeStream FingerPrint.GetValid recs rest) jfp2 jn2
        jnode2 [] [] []).traffic_light_node_list ∧
    (loadNodesFromFile (wfNodeStream fp recs rest) jfp jn jnode [] [] []).node_array =
      (loadNodesFromFile (wfNodeStream FingerPrint.GetValid recs rest) jfp2 jn2
        jnode2 [] [] []).node_array ∧
    (loadNodesFromFile (wfNodeStream fp recs rest) jfp jn jnode [] [] []).stream =
      (loadNodesFromFile (wfNodeStream FingerPrint.GetValid recs rest) jfp2 jn2
        jnode2 [] [] []).stream ∧
    (loadNodesFromFile (wfNodeStream FingerPrint.GetValid recs rest) jfp2 jn2
      jnode2 [] [] []).warned = false ∧
    (loadNodesFromFile (wfNodeStream fp recs rest) jfp jn jnode [] [] []).warned =
      ! fp.TestContractor FingerPrint.GetValid := by
  rw [show wfNodeStream fp recs rest =
    ⟨encFP fp ++ recs.length :: (encNodeList recs ++ rest), false⟩ from rfl,
    show wfNodeStream FingerPrint.GetValid recs rest =
    ⟨encFP FingerPrint.GetValid ++ recs.length :: (encNodeList recs ++ rest), false⟩
      from rfl,
    loadNodesFromFile_spec, loadNodesFromFile_spec]
  simp [FingerPrint.TestContractor]

/-- Claim C9: the node loader appends to the three containers it is given
without clearing them; in particular, with a non-empty initial node container
the index recorded in the barrier list (0) addresses the pre-existing
element, not the barrier node itself, which sits at final position 1. -/
theorem C9_append_without_clear :
    (∀ (s : IStr) (jfp : FingerPrint) (jn : Nat) (jnode : ExternalMemoryNode)
       (b t : List Nat) (arr : List QueryNode),
       (loadNodesFromFile s jfp jn jnode b t arr).node_array =
         arr ++ (loadNodesFromFile s jfp jn jnode [] [] []).node_array ∧
       (loadNodesFromFile s jfp jn jnode b t arr).barrier_node_list =
         b ++ (loadNodesFromFile s jfp jn jnode [] [] []).barrier_node_list ∧
       (loadNodesFromFile s jfp jn jnode b t arr).traffic_light_node_list =
         t ++ (loadNodesFromFile s jfp jn jnode [] [] []).traffic_light_node_list) ∧
    ((loadNodesFromFile (wfNodeStream FingerPrint.GetValid [⟨1, 2, 3, true, false⟩] [])
        ⟨0, 0, 0⟩ 0 dNode [] [] [⟨100, 100, 100⟩]).barrier_node_list = [0] ∧
     (loadNodesFromFile (wfNodeStream FingerPrint.GetValid [⟨1, 2, 3, true, false⟩] [])
        ⟨0, 0, 0⟩ 0 dNode [] [] [⟨100, 100, 100⟩]).node_array.getD 0 dQuery ≠
        queryOf ⟨1, 2, 3, true, false⟩ ∧
     (loadNodesFromFile (wfNodeStream FingerPrint.GetValid [⟨1, 2, 3, true, false⟩] [])
        ⟨0, 0, 0⟩ 0 dNode [] [] [⟨100, 100, 100⟩]).node_array.getD 1 dQuery =
        queryOf ⟨1, 2, 3, true, false⟩) := by
  constructor
  · intro s jfp jn jnode b t arr
    simp only [loadNodesFromFile]
    rw [loadNodesLoop_acc]
    exact ⟨rfl, rfl, rfl⟩
  · exact ⟨by decide, by decide, by decide⟩

/-- Claim C10: in validation mode the per-edge checks cover only sorted
positions 1 and upward, so any single-edge list loads with no assertion
firing, even the concrete edge that violates all four per-edge invariants at
once (zero weight, not forward, inaccessible mode, self-loop). -/
theorem C10_sorted_head_unchecked :
    (∀ (e : NodeBasedEdge) (rest : List Nat) (jm : Nat)
       (edge_list : List NodeBasedEdge),
       loadEdgesFromFile true (wfEdgeStream [e] rest) jm edge_list =
         .ok (⟨rest, false⟩, 1, [e])) ∧
    loadEdgesFromFile true ⟨1 :: encEdge ⟨3, 3, 0, false, 0⟩, false⟩ 0 [] =
      .ok (⟨[], false⟩, 1, [⟨3, 3, 0, false, 0⟩]) := by
  constructor
  · intro e rest jm edge_list
    rw [loadEdges_debug [e] rest jm edge_list (by simp)]
    simp [sortEdges, insertE, edgeValidate, scanEdges]
  · decide

/-- Claim C2, counterexample: an edge list containing a self-loop, loaded
with validation enabled, can complete with no assertion firing: a single
self-loop edge occupies sorted position 0, which the validation loop never
checks, so the load returns normally. -/
theorem C2_counterexample :
    loadEdgesFromFile true ⟨1 :: encEdge ⟨7, 7, 5, true, 1⟩, false⟩ 0 [] =
      .ok (⟨[], false⟩, 1, [⟨7, 7, 5, true, 1⟩]) := by decide

/-- Claim C2 (amended): a self-loop edge triggers the fatal invariant
violation under validation only from sorted position 1 onward: whenever some
other edge sorts strictly before a self-loop edge, validation aborts the
process, while with validation disabled the same list loads silently and in
full. -/
theorem C2_selfLoop_amended (edges : List NodeBasedEdge) (rest : List Nat)
    (jm : Nat) (edge_list : List NodeBasedEdge) (e eBefore : NodeBasedEdge)
    (hmem : e ∈ edges) (hself : e.source = e.target) (hmem2 : eBefore ∈ edges)
    (hbefore : edgeLt eBefore e = true) :
    (loadEdgesFromFile true (wfEdgeStream edges rest) jm edge_list).isFatal = true ∧
    loadEdgesFromFile false (wfEdgeStream edges rest) jm edge_list =
      .ok (⟨rest, false⟩, edges.length, edges) := by
  refine ⟨?_, loadEdges_release edges rest jm edge_list⟩
  have hm : edges.length ≠ 0 := by
    intro h0
    exact List.ne_nil_of_mem hmem (List.length_eq_zero.mp h0)
  rw [loadEdges_debug edges rest jm edge_list hm]
  have hperm := sortEdges_perm edges
  have hpw := pairwise_sortEdges edges
  rcases hsort : sortEdges edges with _ | ⟨p, tail⟩
  · rw [hsort] at hperm
    exact absurd hperm.symm.eq_nil (List.ne_nil_of_mem hmem)
  · rw [hsort] at hperm hpw
    have hscan : scanEdges p tail = false := by
      by_contra hb
      have hscan2 : scanEdges p tail = true := by
        revert hb; cases scanEdges p tail <;> simp
      have hmemS : e ∈ p :: tail := hperm.mem_iff.mpr hmem
      have hep : e ≠ p := by
        intro heq
        subst heq
        have hmemS2 : eBefore ∈ e :: tail := hperm.mem_iff.mpr hmem2
        rcases List.mem_cons.mp hmemS2 with heq2 | hin
        · rw [heq2] at hbefore
          rw [edgeLt_irrefl] at hbefore
          simp at hbefore
        · have hle : edgeLeP e eBefore := (List.pairwise_cons.mp hpw).1 eBefore hin
          unfold edgeLeP at hle
          rw [hle] at hbefore
          simp at hbefore
      have hetail : e ∈ tail := by
        rcases List.mem_cons.mp hmemS with h | h
        · exact absurd h hep
        · exact h
      have hok := scanEdges_mem hscan2 e hetail
      rw [edgeOk_of_selfLoop hself] at hok
      simp at hok
    simp [edgeValidate, hscan, LoadOutcome.isFatal]

theorem C2_selfLoop_amended_witness :
    (loadEdgesFromFile true
       (wfEdgeStream [⟨1, 2, 1, true, 1⟩, ⟨5, 5, 1, true, 1⟩] []) 0 []).isFatal =
      true ∧
    loadEdgesFromFile false
       (wfEdgeStream [⟨1, 2, 1, true, 1⟩, ⟨5, 5, 1, true, 1⟩] []) 0 [] =
      .ok (⟨[], false⟩, 2, [⟨1, 2, 1, true, 1⟩, ⟨5, 5, 1, true, 1⟩]) :=
  C2_selfLoop_amended [⟨1, 2, 1, true, 1⟩, ⟨5, 5, 1, true, 1⟩] [] 0 []
    ⟨5, 5, 1, true, 1⟩ ⟨1, 2, 1, true, 1⟩ (by decide) rfl (by decide) (by decide)

/-- Claim C5: after the node loader (with empty initial containers) returns
n, every id in the barrier list and in the traffic-light list is below n,
both lists are strictly increasing, and an id belongs to a list exactly when
the flag of the record with that index was set. -/
theorem C5_derived_lists (fp : FingerPrint) (recs : List ExternalMemoryNode)
    (rest : List Nat) (jfp : FingerPrint) (jn : Nat) (jnode : ExternalMemoryNode) :
    (∀ x ∈ (loadNodesFromFile (wfNodeStream fp recs rest) jfp jn jnode [] []
        []).barrier_node_list,
        x < (loadNodesFromFile (wfNodeStream fp recs rest) jfp jn jnode [] [] []).n) ∧
    (∀ x ∈ (loadNodesFromFile (wfNodeStream fp recs rest) jfp jn jnode [] []
        []).traffic_light_node_list,
        x < (loadNodesFromFile (wfNodeStream fp recs rest) jfp jn jnode [] [] []).n) ∧
    (loadNodesFromFile (wfNodeStream fp recs rest) jfp jn jnode [] []
      []).barrier_node_list.Pairwise (· < ·) ∧
    (loadNodesFromFile (wfNodeStream fp recs rest) jfp jn jnode [] []
      []).traffic_light_node_list.Pairwise (· < ·) ∧
    (∀ i : Nat, i ∈ (loadNodesFromFile (wfNodeStream fp recs rest) jfp jn jnode
        [] [] []).barrier_node_list ↔
        i < recs.length ∧ (recs.getD i dNode).barrier = true) ∧
    (∀ i : Nat, i ∈ (loadNodesFromFile (wfNodeStream fp recs rest) jfp jn jnode
        [] [] []).traffic_light_node_list ↔
        i < recs.length ∧ (recs.getD i dNode).traffic_lights = true) := by
  rw [show wfNodeStream fp recs rest =
    ⟨encFP fp ++ recs.length :: (encNodeList recs ++ rest), false⟩ from rfl,
    loadNodesFromFile_spec]
  dsimp only
  simp only [List.nil_append]
  refine ⟨?_, ?_, pairwise_flagIdsFrom (fun r => r.barrier) recs 0,
    pairwise_flagIdsFrom (fun r => r.traffic_lights) recs 0, ?_, ?_⟩
  · intro x hx
    rcases (mem_flagIdsFrom (fun r => r.barrier) recs 0 x).mp hx with ⟨k, hk, hxk, _⟩
    omega
  · intro x hx
    rcases (mem_flagIdsFrom (fun r => r.traffic_lights) recs 0 x).mp hx with
      ⟨k, hk, hxk, _⟩
    omega
  · intro i
    rw [mem_flagIdsFrom]
    constructor
    · rintro ⟨k, hk, hik, hf⟩
      have hki : k = i := by omega
      subst hki
      exact ⟨hk, hf⟩
    · rintro ⟨hi, hf⟩
      exact ⟨i, hi, by omega, hf⟩
  · intro i
    rw [mem_flagIdsFrom]
    constructor
    · rintro ⟨k, hk, hik, hf⟩
      have hki : k = i := by omega
      subst hki
      exact ⟨hk, hf⟩
    · rintro ⟨hi, hf⟩
      exact ⟨i, hi, by omega, hf⟩

theorem C5_derived_lists_witness :
    (∀ x ∈ (loadNodesFromFile (wfNodeStream FingerPrint.GetValid
        [⟨1, 2, 3, true, false⟩, ⟨4, 5, 6, false, true⟩, ⟨7, 8, 9, true, true⟩] [])
        ⟨0, 0, 0⟩ 0 dNode [] [] []).barrier_node_list,
        x < (loadNodesFromFile (wfNodeStream FingerPrint.GetValid
        [⟨1, 2, 3, true, false⟩, ⟨4, 5, 6, false, true⟩, ⟨7, 8, 9, true, true⟩] [])
        ⟨0, 0, 0⟩ 0 dNode [] [] []).n) ∧
    (∀ x ∈ (loadNodesFromFile (wfNodeStream FingerPrint.GetValid
        [⟨1, 2, 3, true, false⟩, ⟨4, 5, 6, false, true⟩, ⟨7, 8, 9, true, true⟩] [])
        ⟨0, 0, 0⟩ 0 dNode [] [] []).traffic_light_node_list,
        x < (loadNodesFromFile (wfNodeStream FingerPrint.GetValid
        [⟨1, 2, 3, true, false⟩, ⟨4, 5, 6, false, true⟩, ⟨7, 8, 9, true, true⟩] [])
        ⟨0, 0, 0⟩ 0 dNode [] [] []).n) ∧
    (loadNodesFromFile (wfNodeStream FingerPrint.GetValid
        [⟨1, 2, 3, true, false⟩, ⟨4, 5, 6, false, true⟩, ⟨7, 8, 9, true, true⟩] [])
        ⟨0, 0, 0⟩ 0 dNode [] [] []).barrier_node_list.Pairwise (· < ·) ∧
    (loadNodesFromFile (wfNodeStream FingerPrint.GetValid
        [⟨1, 2, 3, true, false⟩, ⟨4, 5, 6, false, true⟩, ⟨7, 8, 9, true, true⟩] [])
        ⟨0, 0, 0⟩ 0 dNode [] [] []).traffic_light_node_list.Pairwise (· < ·) ∧
    (∀ i : Nat, i ∈ (loadNodesFromFile (wfNodeStream FingerPrint.GetValid
        [⟨1, 2, 3, true, false⟩, ⟨4, 5, 6, false, true⟩, ⟨7, 8, 9, true, true⟩] [])
        ⟨0, 0, 0⟩ 0 dNode [] [] []).barrier_node_list ↔
        i < ([⟨1, 2, 3, true, false⟩, ⟨4, 5, 6, false, true⟩,
          (⟨7, 8, 9, true, true⟩ : ExternalMemoryNode)] : List ExternalMemoryNode).length ∧
        (([⟨1, 2, 3, true, false⟩, ⟨4, 5, 6, false, true⟩,
          ⟨7, 8, 9, true, true⟩] : List ExternalMemoryNode).getD i dNode).barrier = true) ∧
    (∀ i : Nat, i ∈ (loadNodesFromFile (wfNodeStream FingerPrint.GetValid
        [⟨1, 2, 3, true, false⟩, ⟨4, 5, 6, false, true⟩, ⟨7, 8, 9, true, true⟩] [])
        ⟨0, 0, 0⟩ 0 dNode [] [] []).traffic_light_node_list ↔
        i < ([⟨1, 2, 3, true, false⟩, ⟨4, 5, 6, false, true⟩,
          (⟨7, 8, 9, true, true⟩ : ExternalMemoryNode)] : List ExternalMemoryNode).length ∧
        (([⟨1, 2, 3, true, false⟩, ⟨4, 5, 6, false, true⟩,
          ⟨7, 8, 9, true, true⟩] : List ExternalMemoryNode).getD i
          dNode).traffic_lights = true) :=
  C5_derived_lists FingerPrint.GetValid
    [⟨1, 2, 3, true, false⟩, ⟨4, 5, 6, false, true⟩, ⟨7, 8, 9, true, true⟩] []
    ⟨0, 0, 0⟩ 0 dNode

/-- Claim C6: two edges sharing the same (source, target) pair make
validation abort fatally (after sorting they sit adjacently, so the scan
rejects the duplicate pair or an earlier violation), while with validation
disabled both records load into the returned container. -/
theorem C6_duplicate_pair (edges : List NodeBasedEdge) (rest : List Nat)
    (jm : Nat) (edge_list : List NodeBasedEdge) (e1 e2 : NodeBasedEdge)
    (hsub : List.Sublist [e1, e2] edges) (hsrc : e1.source = e2.source)
    (htgt : e1.target = e2.target) :
    (loadEdgesFromFile true (wfEdgeStream edges rest) jm edge_list).isFatal = true ∧
    loadEdgesFromFile false (wfEdgeStream edges rest) jm edge_list =
      .ok (⟨rest, false⟩, edges.length, edges) := by
  refine ⟨?_, loadEdges_release edges rest jm edge_list⟩
  have h2le : 2 ≤ edges.length := by
    have := hsub.length_le
    simpa using this
  have hm : edges.length ≠ 0 := by omega
  rw [loadEdges_debug edges rest jm edge_list hm]
  have hperm := sortEdges_perm edges
  have hpw := pairwise_sortEdges edges
  rcases hsort : sortEdges edges with _ | ⟨p, tail⟩
  · rw [hsort] at hperm
    have heq : edges = [] := hperm.symm.eq_nil
    rw [heq] at h2le
    simp at h2le
  · rw [hsort] at hperm hpw
    have hscan : scanEdges p tail = false := by
      by_contra hb
      have hscan2 : scanEdges p tail = true := by
        revert hb; cases scanEdges p tail <;> simp
      have hkeys : (p :: tail).Pairwise (fun a b => keyOf a ≠ keyOf b) :=
        scanEdges_keyNe tail p hscan2 hpw
      have hkeysE : edges.Pairwise (fun a b => keyOf a ≠ keyOf b) :=
        (hperm.pairwise_iff (fun h hc => h hc.symm)).mp hkeys
      have hpair : ([e1, e2] : List NodeBasedEdge).Pairwise
          (fun a b => keyOf a ≠ keyOf b) := hkeysE.sublist hsub
      have h12 : keyOf e1 ≠ keyOf e2 := by
        rcases List.pairwise_cons.mp hpair with ⟨h1, _⟩
        exact h1 e2 (List.mem_singleton.mpr rfl)
      exact h12 (by simp [keyOf, hsrc, htgt])
    simp [edgeValidate, hscan, LoadOutcome.isFatal]

theorem C6_duplicate_pair_witness :
    (loadEdgesFromFile true
       (wfEdgeStream [⟨1, 2, 3, true, 1⟩, ⟨1, 2, 9, true, 1⟩] []) 0 []).isFatal =
      true ∧
    loadEdgesFromFile false
       (wfEdgeStream [⟨1, 2, 3, true, 1⟩, ⟨1, 2, 9, true, 1⟩] []) 0 [] =
      .ok (⟨[], false⟩, 2, [⟨1, 2, 3, true, 1⟩, ⟨1, 2, 9, true, 1⟩]) :=
  C6_duplicate_pair [⟨1, 2, 3, true, 1⟩, ⟨1, 2, 9, true, 1⟩] [] 0 []
    ⟨1, 2, 3, true, 1⟩ ⟨1, 2, 9, true, 1⟩ (List.Sublist.refl _) rfl rfl
